import Mathlib

set_option linter.unusedVariables false

/-!
A shallow embedding of the lazy reactive expression engine in
src/panel/interactive.py (class interactive_base, the interactive
subclass, and the helpers _flatten and _find_widgets), together with
proofs that settle the frozen claims about it.

The embedding models one chain family (all nodes derived from a single
original wrapped object).  Mutable Python state (the node attributes
_dirty, _current_ and _method, the shared cell _shared_obj[0], and the
root Wrapper's object parameter) lives in an explicit Sys record that
every operation threads through.  Recursion over the chain is driven by
an explicit fuel argument so that every definition is structurally
recursive and kernel-computable; all theorems are stated at fuel values
large enough that fuel exhaustion never occurs on the runs they discuss.
-/

/-- Python values flowing through a pipeline, restricted to the shapes the
claims exercise: integers, strings, booleans, lists (with a pandas-like
head method), record objects with an attribute table and an item table
(modelling dataframe-like objects where both obj.col and obj.getitem of
the string col work), bound methods obtained by getattr but not yet
called, slice objects, and raw parameter/widget objects (which appear
when nested containers are passed through unresolved). -/
inductive Val where
  | pynone : Val
  | int : Int → Val
  | str : String → Val
  | boolV : Bool → Val
  | listV : List Val → Val
  | recV : List (String × Val) → List (String × Val) → Val
  | boundMethod : String → Val → Val
  | sliceV : Val → Val → Val → Val
  | paramV : Nat → Val
  | widgetV : Nat → Val

/-- Exceptions the modelled code can raise. unsupportedRoot stands for the
ValueError raised by interactive_base.set when the chain root holds no
Wrapper; fallback marks the branch of getattribute that falls through to
ordinary Python attribute lookup on the instance itself; fuelExhausted and
internal are artifacts of the embedding (never produced on the runs the
theorems discuss). -/
inductive Err where
  | typeError | attributeError | keyError | indexError
  | unsupportedRoot | fallback | fuelExhausted | internal
deriving DecidableEq, Repr

/-- Tags for the concrete operator-module callables the claims exercise. -/
inductive OpTag where
  | add | mul | gt | getitem
deriving DecidableEq, Repr

/-- Owner of a reactive parameter: a Wrapper (the boxed-constant holder) or
a UI widget identified by a numeric id. -/
inductive POwner where
  | wrapperOwner : POwner
  | widgetOwner : Nat → POwner
deriving DecidableEq, Repr

/-- A reactive parameter reference: its identity and its owner. Parameter
id 0 is the object parameter of the root Wrapper (for a constant root) or
the value parameter of the root widget (for a widget root). -/
structure PRef where
  pid : Nat
  owner : POwner
deriving DecidableEq, Repr

/-- One operand of a recorded operation: a plain value, a reactive
parameter, a widget object (carrying its id and the id of its value
parameter), a slice built from three operands, or a nested list of
operands. -/
inductive Arg where
  | val : Val → Arg
  | paramA : PRef → Arg
  | widgetA : Nat → Nat → Arg
  | sliceA : Arg → Arg → Arg → Arg
  | listA : List Arg → Arg

/-- The fn slot of an operation record: either a method name (a string,
looked up and called on the input object) or a concrete callable. -/
inductive Fn where
  | method : String → Fn
  | call : OpTag → Fn

/-- The args slot of an operation record. _resolve_accessor stores the raw
accessor string there (source: args: self._method), every other site
stores a tuple; _eval_operation iterates whichever it finds, and iterating
a Python string yields its characters as one-character strings. -/
inductive Args where
  | tuple : List Arg → Args
  | rawStr : String → Args

/-- An Operation Record: the _operation dict with keys fn, args, kwargs
and reverse. -/
structure Operation where
  fn : Fn
  args : Args
  kwargs : List (String × Arg)
  reverse : Bool

/-- One entry of the invocation trace: _eval_operation invoked a method of
the wrapped value, or invoked a concrete operator callable. -/
inductive LEntry where
  | meth : String → LEntry
  | oper : OpTag → LEntry
deriving DecidableEq, Repr

/-- How the chain family was rooted: a plain constant boxed in a Wrapper,
or a widget whose value parameter feeds the root producer function. -/
inductive RootKind where
  | constant : RootKind
  | widgetRooted : Nat → RootKind
deriving DecidableEq, Repr

/-- One interactive_base instance.  prev, operation, depth, method and the
dirty/current pair mirror _prev, _operation, _depth, _method, _dirty and
_current_.  wrapper is the _wrapper slot (some k names Wrapper number k,
none means the instance has no Wrapper).  fnParams models _fn_params (the
parameters feeding this instance's _fn) and params models the _params list
as computed at construction time by _setup_invalidations.  xkwargs models
the leftover _kwargs dict. -/
structure Node where
  prev : Option Nat
  operation : Option Operation
  depth : Nat
  method : Option String
  wrapper : Option Nat
  fnParams : List PRef
  params : List PRef
  xkwargs : List (String × Arg)
  dirty : Bool
  current : Val

/-- The whole mutable world of one chain family.  nodes lists every
interactive instance created so far (a node's id is its index); sharedObj
is the single shared cell _shared_obj[0]; wrapperObj is the object slot of
the root Wrapper; paramVals gives the current value of external reactive
parameters used as operands; nextWrapper numbers the fresh Wrappers that
non-copy clones create in interactive_base.__new__; log records every
operator/method invocation performed by _eval_operation. -/
structure Sys where
  nodes : List Node
  sharedObj : Val
  wrapperObj : Val
  paramVals : List (Nat × Val)
  nextWrapper : Nat
  rootKind : RootKind
  log : List LEntry

namespace interactive

/-! ## Value-level helpers -/

/-- Public (non-underscore) attributes visible via dir on a wrapped value.
Record objects expose their attribute-table keys (a dataframe exposes its
columns); lists expose the head method. -/
def publicAttrs : Val → List String
  | .recV attrs _ => attrs.map Prod.fst
  | .listV _ => ["head"]
  | _ => []

/-- Python getattr restricted to the modelled values: attribute-table
lookup on record objects, and the bound head method on lists. -/
def lookupAttr : Val → String → Option Val
  | .recV attrs _, m => attrs.lookup m
  | .listV l, m => if m = "head" then some (.boundMethod "head" (.listV l)) else none
  | _, _ => none

/-- getattr with the object itself as default, as in the trailing
getattr(obj, self._method, obj) of interactive_base.eval. -/
def getattrD (v : Val) (m : String) : Val :=
  match lookupAttr v m with
  | some w => w
  | none => v

/-- Calling a value obtained from getattr (the getattr(obj, fn)(...) step
of _eval_operation).  Only the bound head method of a list is callable in
the modelled universe; head takes the first n elements. -/
def callBound : Val → List Val → List (String × Val) → Except Err Val
  | .boundMethod "head" (.listV l), [.int n], [] => .ok (.listV (l.take n.toNat))
  | .boundMethod _ _, _, _ => .error .typeError
  | _, _, _ => .error .typeError

/-- operator.getitem on the modelled values: item-table lookup on record
objects (KeyError when missing), positional indexing on lists. -/
def getitemV : Val → Val → Except Err Val
  | .recV _ items, .str k =>
      match items.lookup k with
      | some v => .ok v
      | none => .error .keyError
  | .listV l, .int i =>
      match l.get? i.toNat with
      | some v => .ok v
      | none => .error .indexError
  | _, _ => .error .typeError

/-- Applying a concrete operator callable to its full positional argument
list.  A call with keyword arguments, with the wrong arity, or on
unsupported operand types raises TypeError, as the CPython operators do;
in particular operator.getitem called with more than two positional
arguments (which happens when _eval_operation iterates a accessor string
of length greater than one) raises TypeError. -/
def applyOp (t : OpTag) (vs : List Val) (kw : List (String × Val)) : Except Err Val :=
  match kw with
  | _ :: _ => .error .typeError
  | [] =>
    match t, vs with
    | .add, [.int a, .int b] => .ok (.int (a + b))
    | .add, [.str a, .str b] => .ok (.str (a ++ b))
    | .mul, [.int a, .int b] => .ok (.int (a * b))
    | .gt, [.int a, .int b] => .ok (.boolV (decide (b < a)))
    | .getitem, [o, k] => getitemV o k
    | _, _ => .error .typeError

/-! ## Operand resolution -/

/-- The sequence _eval_operation iterates when it walks operation args:
a tuple yields its elements, a raw string (stored by _resolve_accessor)
yields its characters as one-character strings, exactly as iterating a
string does in Python. -/
def argsList : Args → List Arg
  | .tuple l => l
  | .rawStr m => m.data.map (fun c => Arg.val (Val.str c.toString))

/-- Raw (unresolved) view of operands nested inside containers: parameters
and widgets pass through as objects because transform_dependency leaves
containers untouched.  Fuel bounds the nesting depth; every container in
this development is shallower than any fuel used. -/
def rawArgs : Nat → List Arg → List Val
  | 0, _ => []
  | _, [] => []
  | fuel + 1, a :: r =>
    (match a with
     | .val v => v
     | .paramA p => .paramV p.pid
     | .widgetA w _ => .widgetV w
     | .sliceA x y z =>
        match rawArgs fuel [x], rawArgs fuel [y], rawArgs fuel [z] with
        | [vx], [vy], [vz] => .sliceV vx vy vz
        | _, _, _ => .pynone
     | .listA l => .listV (rawArgs fuel l)) :: rawArgs fuel r

/-- Current value of an external reactive parameter (the getattr on its
owner that _eval_operation performs). -/
def lookupParam (s : Sys) (pid : Nat) : Val :=
  match s.paramVals.lookup pid with
  | some v => v
  | none => .pynone

/-- Resolution of one top-level operand in _eval_operation: interactive
parameters are read from their owner, widgets are transformed to their
value parameter and read, plain values pass through, and containers pass
through with their contents unresolved. -/
def resolveArg (s : Sys) : Arg → Val
  | .val v => v
  | .paramA p => lookupParam s p.pid
  | .widgetA _ pid => lookupParam s pid
  | .sliceA x y z =>
      match rawArgs 64 [x], rawArgs 64 [y], rawArgs 64 [z] with
      | [vx], [vy], [vz] => .sliceV vx vy vz
      | _, _, _ => .pynone
  | .listA l => .listV (rawArgs 64 l)

/-- Append one invocation to the trace. -/
def addLog (s : Sys) (e : LEntry) : Sys :=
  { s with log := s.log ++ [e] }

/-- interactive_base._eval_operation: resolve every positional and keyword
operand, then invoke the recorded fn.  A method name is looked up with
getattr and called on the input object; a callable with the reverse flag
receives the first resolved argument, then the input object, then the
remaining arguments; otherwise the callable receives the input object
followed by the resolved arguments.  On the reverse path an empty argument
list raises IndexError before the callable is invoked. -/
def eval_operation (s : Sys) (obj : Val) (op : Operation) : (Except Err Val) × Sys :=
  let rargs := (argsList op.args).map (resolveArg s)
  let rkw := op.kwargs.map (fun kv => (kv.1, resolveArg s kv.2))
  match op.fn with
  | .method name =>
    match lookupAttr obj name with
    | none => (.error .attributeError, s)
    | some f => (callBound f rargs rkw, addLog s (.meth name))
  | .call t =>
    if op.reverse then
      match rargs with
      | [] => (.error .indexError, s)
      | r0 :: rest => (applyOp t (r0 :: obj :: rest) rkw, addLog s (.oper t))
    else
      (applyOp t (obj :: rargs) rkw, addLog s (.oper t))

/-! ## Node-store helpers -/

/-- Replace node nid by f applied to it (identity outside the store). -/
def updateN (s : Sys) (nid : Nat) (f : Node → Node) : Sys :=
  match s.nodes[nid]? with
  | some nd => { s with nodes := s.nodes.set nid (f nd) }
  | none => s

/-- Write the memoization pair: _current_ := obj and _dirty := False. -/
def setCache (s : Sys) (nid : Nat) (v : Val) : Sys :=
  updateN s nid (fun nd => { nd with current := v, dirty := false })

/-- Set _dirty := True on one node. -/
def markDirty (s : Sys) (nid : Nat) : Sys :=
  updateN s nid (fun nd => { nd with dirty := true })

/-- Assign the _method slot of a node. -/
def setMeth (s : Sys) (nid : Nat) (m : Option String) : Sys :=
  updateN s nid (fun nd => { nd with method := m })

/-! ## Evaluation -/

/-- interactive_base.eval.  A clean node returns its cached _current_
immediately (without applying any pending accessor).  A dirty node obtains
its input from the shared cell (chain root) or from its parent's eval,
applies its Operation Record if any, stores the result in the cache and
clears dirty, and only then applies a still-pending accessor as a plain
attribute read on the value it returns (the cache keeps the pre-accessor
value).  Errors propagate without touching the node's cache or flag. -/
def eval : Nat → Sys → Nat → (Except Err Val) × Sys
  | 0, s, _ => (.error .fuelExhausted, s)
  | fuel + 1, s, nid =>
    match s.nodes[nid]? with
    | none => (.error .internal, s)
    | some node =>
      if node.dirty = false then (.ok node.current, s)
      else
        match (match node.prev with
               | none => ((.ok s.sharedObj : Except Err Val), s)
               | some p => eval fuel s p) with
        | (.error e, s1) => (.error e, s1)
        | (.ok obj0, s1) =>
          match (match node.operation with
                 | none => ((.ok obj0 : Except Err Val), s1)
                 | some op => eval_operation s1 obj0 op) with
          | (.error e, s2) => (.error e, s2)
          | (.ok obj, s2) =>
            let s3 := setCache s2 nid obj
            match node.method with
            | none => (.ok obj, s3)
            | some m => (.ok (getattrD obj m), s3)

/-- The evaluate-if-dirty step that interactive_base.__getattribute__
performs before serving any attribute that is not on its no_lookup list:
accessing almost any member of a dirty node first runs eval on it, and an
exception from that evaluation propagates to the attribute access. -/
def touch (fuel : Nat) (s : Sys) (nid : Nat) : (Except Err Unit) × Sys :=
  match s.nodes[nid]? with
  | none => (.error .internal, s)
  | some node =>
    if node.dirty then
      match eval fuel s nid with
      | (.ok _, s1) => (.ok (), s1)
      | (.error e, s1) => (.error e, s1)
    else (.ok (), s)

/-! ## Cloning -/

/-- The parameter reference owned by Wrapper number k. -/
def freshPRef (k : Nat) : PRef := ⟨k, .wrapperOwner⟩

/-- Identity test used by the dedup in _params (parameters are
deduplicated by identity, modelled by their id): does the already-present
q name the same parameter as the candidate p? -/
def samePid (p q : PRef) : Bool := q.pid == p.pid

/-- Append parameters to an accumulator, skipping ones already present,
exactly as the repeated membership tests in _params do. -/
def addParams (acc : List PRef) (ps : List PRef) : List PRef :=
  ps.foldl (fun a p => if a.any (samePid p) then a else a ++ [p]) acc

/-- The parameter contributed by one operand of an operation: a parameter
operand contributes itself, a widget operand contributes its value
parameter (via transform_dependency); containers contribute nothing
because _params does not look inside them. -/
def argPRef : Arg → Option PRef
  | .paramA p => some p
  | .widgetA w pid => some ⟨pid, .widgetOwner w⟩
  | _ => none

/-- Parameters reachable from an operation's args and kwargs as _params
collects them; the keyword named ax is explicitly excluded. -/
def opParams : Option Operation → List PRef
  | none => []
  | some op =>
      (argsList op.args).filterMap argPRef ++
      op.kwargs.filterMap (fun kv => if kv.1 = "ax" then none else argPRef kv.2)

/-- Python dict(a, **b): entries of a with b's overrides applied, followed
by b's new keys. -/
def mergeKw (a b : List (String × Arg)) : List (String × Arg) :=
  a.map (fun kv => match b.lookup kv.1 with | some v => (kv.1, v) | none => kv) ++
  b.filter (fun kv => (a.lookup kv.1).isNone)

/-- interactive_base._clone.  Both branches take operation or
self._operation and depth := self._depth + 1.  The copy branch passes
prev=self._prev, method=self._method, fn=self._fn and wrapper=self._wrapper
through, so the new instance is a sibling snapshot (its _params equal the
source's, since they are recomputed from the same fn, prev and operation);
the _current keyword it also passes is accepted and then discarded by
__init__, so the copy starts dirty with an empty cache.  The non-copy
branch passes prev=self and neither fn nor wrapper, so __new__ boxes the
current shared value in a fresh Wrapper and binds a fresh fn to that
Wrapper's object parameter; the new instance watches that fresh parameter
plus everything the parent watches plus the new operation's operands. -/
def clone (s : Sys) (nid : Nat) (op : Option Operation) (copy : Bool)
    (kw : List (String × Arg)) : Nat × Sys :=
  match s.nodes[nid]? with
  | none => (0, s)
  | some node =>
    let operation := match op with | some o => some o | none => node.operation
    if copy then
      let newNode : Node :=
        { prev := node.prev, operation := operation, depth := node.depth + 1,
          method := node.method, wrapper := node.wrapper,
          fnParams := node.fnParams, params := node.params,
          xkwargs := mergeKw node.xkwargs kw, dirty := true, current := .pynone }
      (s.nodes.length, { s with nodes := s.nodes ++ [newNode] })
    else
      let k := s.nextWrapper
      let newNode : Node :=
        { prev := some nid, operation := operation, depth := node.depth + 1,
          method := none, wrapper := some k,
          fnParams := [freshPRef k],
          params := addParams (addParams [freshPRef k] node.params) (opParams operation),
          xkwargs := mergeKw node.xkwargs kw, dirty := true, current := .pynone }
      (s.nodes.length, { s with nodes := s.nodes ++ [newNode], nextWrapper := k + 1 })

/-- interactive_base._resolve_accessor.  With no pending accessor it
returns a copied clone.  With a pending accessor m it records the
getitem-like operation whose args field is the raw string m (source:
args: self._method) on a chained clone, and resets _method in a finally
block, also when the clone step raised.  In both branches the attribute
access self._clone first evaluates the node if it is dirty. -/
def resolve_accessor (fuel : Nat) (s : Sys) (nid : Nat) : (Except Err Nat) × Sys :=
  match s.nodes[nid]? with
  | none => (.error .internal, s)
  | some node =>
    match node.method with
    | none =>
      match touch fuel s nid with
      | (.error e, s1) => (.error e, s1)
      | (.ok _, s1) =>
        let (m, s2) := clone s1 nid none true []
        (.ok m, s2)
    | some mth =>
      let op : Operation :=
        { fn := .call .getitem, args := .rawStr mth, kwargs := [], reverse := false }
      match touch fuel s nid with
      | (.error e, s1) => (.error e, setMeth s1 nid none)
      | (.ok _, s1) =>
        let (m, s2) := clone s1 nid (some op) false []
        (.ok m, setMeth s2 nid none)

/-- The interception branch of interactive_base.__getattribute__ for a
name that is a public member of the exposed current value: evaluate if
dirty, resolve the exposed value through any pending accessor, and when
the name belongs to that value's public dir, resolve the outstanding
accessor and set _method := name on the returned node.  Any other name
falls through to ordinary attribute lookup on the instance itself,
reported here as the distinguished fallback result. -/
def getattribute (fuel : Nat) (s : Sys) (nid : Nat) (name : String) :
    (Except Err Nat) × Sys :=
  match touch fuel s nid with
  | (.error e, s1) => (.error e, s1)
  | (.ok _, s1) =>
    match s1.nodes[nid]? with
    | none => (.error .internal, s1)
    | some node =>
      let cur := match node.method with
        | some m => getattrD node.current m
        | none => node.current
      if name ∈ publicAttrs cur then
        match resolve_accessor fuel s1 nid with
        | (.error e, s2) => (.error e, s2)
        | (.ok m, s2) => (.ok m, setMeth s2 m (some name))
      else (.error .fallback, s1)

/-- interactive_base._apply_operator: resolve any pending accessor, then
chain a clone carrying the operator's Operation Record.  The attribute
accesses self._resolve_accessor and new._clone each evaluate their
(dirty) receiver first, so building the node can already run the existing
pipeline. -/
def apply_operator (fuel : Nat) (s : Sys) (nid : Nat) (t : OpTag) (args : List Arg)
    (kw : List (String × Arg)) (rev : Bool) : (Except Err Nat) × Sys :=
  match touch fuel s nid with
  | (.error e, s1) => (.error e, s1)
  | (.ok _, s1) =>
    match resolve_accessor fuel s1 nid with
    | (.error e, s2) => (.error e, s2)
    | (.ok m, s2) =>
      let op : Operation := { fn := .call t, args := .tuple args, kwargs := kw, reverse := rev }
      match touch fuel s2 m with
      | (.error e, s3) => (.error e, s3)
      | (.ok _, s3) =>
        let (c, s4) := clone s3 m (some op) false []
        (.ok c, s4)

/-- interactive_base.__getitem__ is _apply_operator with operator.getitem
and the key as sole argument. -/
def getitem (fuel : Nat) (s : Sys) (nid : Nat) (key : Arg) : (Except Err Nat) × Sys :=
  apply_operator fuel s nid .getitem [key] [] false

/-- interactive_base.__call__.  With no pending accessor: a depth-0 chain
root is re-parameterized by a plain clone that merges the supplied keyword
arguments (positional arguments are not modelled on this branch: the
development only calls roots with keywords, as the source's own accessor
entry point does); any other node raises AttributeError.  With a pending
accessor m: snapshot the node with a copied clone, chain the method-call
Operation Record onto the snapshot, and reset the snapshot's _method in a
finally block.  Reading self._depth and the _clone attribute accesses each
evaluate a dirty receiver first. -/
def call (fuel : Nat) (s : Sys) (nid : Nat) (args : List Arg)
    (kw : List (String × Arg)) : (Except Err Nat) × Sys :=
  match s.nodes[nid]? with
  | none => (.error .internal, s)
  | some node =>
    match node.method with
    | none =>
      match touch fuel s nid with
      | (.error e, s1) => (.error e, s1)
      | (.ok _, s1) =>
        if node.depth = 0 then
          let (c, s2) := clone s1 nid none false kw
          (.ok c, s2)
        else (.error .attributeError, s1)
    | some mth =>
      match touch fuel s nid with
      | (.error e, s1) => (.error e, s1)
      | (.ok _, s1) =>
        let (c1, s2) := clone s1 nid none true []
        let op : Operation :=
          { fn := .method mth, args := .tuple args, kwargs := kw, reverse := false }
        match touch fuel s2 c1 with
        | (.error e, s3) => (.error e, setMeth s3 c1 none)
        | (.ok _, s3) =>
          let (c2, s4) := clone s3 c1 (some op) false []
          (.ok c2, setMeth s4 c1 none)

/-! ## The set override API -/

/-- Firing the watchers attached to the root Wrapper's object parameter
after set writes it: the depth-0 root whose fn is bound to parameter 0
re-evaluates that fn and stores the result in the shared cell
(_update_obj), and every node whose _params contain parameter 0 marks
itself dirty (_invalidate_current). -/
def fireWrapperSet (s : Sys) (v : Val) : Sys :=
  let s1 := { s with wrapperObj := v }
  let s2 :=
    if s1.nodes.any (fun nd => nd.depth == 0 && nd.fnParams.any (fun p => p.pid == 0))
    then { s1 with sharedObj := v }
    else s1
  { s2 with
    nodes := s2.nodes.map (fun nd =>
      if nd.params.any (fun p => p.pid == 0) then { nd with dirty := true } else nd) }

/-- The walk of interactive_base.set: mark each node on the way dirty; at
the node with no _prev, raise (modelled as unsupportedRoot) when it has no
Wrapper, else write the new value into the Wrapper's object parameter,
which synchronously triggers the watchers. -/
def setGo : Nat → Sys → Nat → Val → (Except Err Unit) × Sys
  | 0, s, _, _ => (.error .fuelExhausted, s)
  | fuel + 1, s, nid, v =>
    match s.nodes[nid]? with
    | none => (.error .internal, s)
    | some node =>
      let s1 := markDirty s nid
      match node.prev with
      | some p => setGo fuel s1 p v
      | none =>
        match node.wrapper with
        | none => (.error .unsupportedRoot, s1)
        | some _ => (.ok (), fireWrapperSet s1 v)

/-- interactive_base.set. -/
def set (fuel : Nat) (s : Sys) (nid : Nat) (v : Val) : (Except Err Unit) × Sys :=
  setGo fuel s nid v

/-- The list of node ids interactive_base.set walks from nid to the chain
root. -/
def pathOf : Nat → Sys → Nat → List Nat
  | 0, _, _ => []
  | fuel + 1, s, nid =>
    match s.nodes[nid]? with
    | none => []
    | some node =>
      nid :: (match node.prev with
              | some p => pathOf fuel s p
              | none => [])

/-! ## Construction of a chain family -/

/-- The root parameter of a family: the root Wrapper's object parameter
for a constant root, the widget's value parameter for a widget root. -/
def rootPRef : RootKind → PRef
  | .constant => ⟨0, .wrapperOwner⟩
  | .widgetRooted w => ⟨0, .widgetOwner w⟩

/-- Building the original interactive instance (interactive_base.__new__
plus __init__): a constant is boxed in Wrapper number 0 and fn is bound to
its object parameter; a widget root binds fn to the widget's value
parameter and has no Wrapper.  Either way the shared cell starts at the
current root value, the node is depth 0 with no prev, no operation and no
pending accessor, and it starts dirty. -/
def init (rk : RootKind) (v : Val) (pv : List (Nat × Val)) : Sys :=
  let root : Node :=
    { prev := none, operation := none, depth := 0, method := none,
      wrapper := match rk with | .constant => some 0 | .widgetRooted _ => none,
      fnParams := [rootPRef rk], params := [rootPRef rk], xkwargs := [],
      dirty := true, current := .pynone }
  { nodes := [root], sharedObj := v,
    wrapperObj := match rk with | .constant => v | .widgetRooted _ => .pynone,
    paramVals := pv, nextWrapper := 1, rootKind := rk, log := [] }

/-! ## Widget discovery -/

/-- The widget owning a parameter, when its owner is a widget. -/
def widgetOfP (p : PRef) : Option Nat :=
  match p.owner with
  | .widgetOwner w => some w
  | .wrapperOwner => none

/-- Append a widget if it is not already present (dedup preserving
discovery order). -/
def addIfNew (w : Nat) (acc : List Nat) : List Nat :=
  if acc.contains w then acc else acc ++ [w]

/-- _find_widgets with _flatten inlined: scan the flattened operand list
in order, collecting widget operands and widgets owning parameter
operands; a slice operand is scanned as a fresh nested operand list whose
results are merged with dedup.  Nested lists are flattened in place (the
scan visits their elements in order with the same accumulator), which is
what scanning the _flatten generator does.  Fuel bounds nesting depth. -/
def find_widgets : Nat → List Arg → List Nat → List Nat
  | 0, _, acc => acc
  | _, [], acc => acc
  | fuel + 1, a :: r, acc =>
    let acc := match a with
      | .val _ => acc
      | .widgetA w _ => addIfNew w acc
      | .paramA p =>
        match widgetOfP p with
        | some w => addIfNew w acc
        | none => acc
      | .listA l => find_widgets fuel l acc
      | .sliceA x y z =>
        (find_widgets fuel [x, y, z] []).foldl (fun b w => addIfNew w b) acc
    find_widgets fuel r acc

/-- The operands _find_widgets receives for one operation: its args list
followed by its kwargs values. -/
def opArgsForWidgets (op : Operation) : List Arg :=
  argsList op.args ++ op.kwargs.map (fun kv => kv.2)

/-- The ancestor walk of interactive.widgets: starting at the node itself
and following _prev, scan each node's operation for widgets. -/
def widgetsWalk : Nat → Sys → Nat → List Nat → List Nat
  | 0, _, _, acc => acc
  | fuel + 1, s, nid, acc =>
    match s.nodes[nid]? with
    | none => acc
    | some node =>
      let acc := match node.operation with
        | none => acc
        | some op => find_widgets 64 (opArgsForWidgets op) acc
      match node.prev with
      | some p => widgetsWalk fuel s p acc
      | none => acc

/-- interactive.widgets: the widgets owning parameters of this node's own
_fn_params, then every widget found in the operations along the ancestor
chain, deduplicated in discovery order. -/
def widgets (s : Sys) (nid : Nat) : List Nat :=
  match s.nodes[nid]? with
  | none => []
  | some node =>
    let ws := node.fnParams.foldl
      (fun acc p => match widgetOfP p with
                    | some w => addIfNew w acc
                    | none => acc) []
    widgetsWalk (s.nodes.length + 1) s nid ws

end interactive

open interactive

/-! ## Structural signature and invariants -/

/-- The chain-structure fields of a node that evaluation, cache writes and
dirty marks never change: parent link, depth, Wrapper, pending accessor
slot excluded (it has its own updates), parameter lists. -/
def nodeSig (nd : Node) :
    Option Nat × Nat × Option Nat × Option String × List PRef × List PRef :=
  (nd.prev, nd.depth, nd.wrapper, nd.method, nd.fnParams, nd.params)

/-- s' arises from s without creating nodes or altering chain structure
(only caches, dirty flags, the shared cell, the trace and parameter values
may differ). -/
def SigPres (s s' : Sys) : Prop :=
  s'.rootKind = s.rootKind ∧ s'.nodes.map nodeSig = s.nodes.map nodeSig

/-- Does a parameter reference name the root parameter (id 0)? -/
def pidZero (p : PRef) : Bool := p.pid == 0

/-- The Wrapper the original root instance carries for each root kind. -/
def rootWrapOf : RootKind → Option Nat
  | .constant => some 0
  | .widgetRooted _ => none

/-- Structural well-formedness of a chain family: node 0 is the original
depth-0 instance whose fn watches the root parameter; every parent link
points to an earlier node; only parent-less nodes can have depth 0; a
parent-less node carries exactly the root Wrapper (present for a constant
root, absent for a widget root); and every node's _params include the root
parameter, so a root write invalidates it. -/
def GoodSys (s : Sys) : Prop :=
  (∃ n0 : Node, s.nodes[0]? = some n0 ∧ n0.depth = 0 ∧ n0.fnParams.any pidZero = true) ∧
  ∀ (i : Nat) (nd : Node), s.nodes[i]? = some nd →
    (∀ j, nd.prev = some j → j < i) ∧
    (nd.depth = 0 → nd.prev = none) ∧
    (nd.prev = none → nd.wrapper = rootWrapOf s.rootKind) ∧
    nd.params.any pidZero = true

/-- States reachable from an original instance through the public API:
attribute interception, operator application, calls, evaluation and set,
each allowed to fail (the post-state is kept either way). -/
inductive Reach : Sys → Prop where
  | init : ∀ rk v pv, Reach (init rk v pv)
  | evalS : ∀ s fuel nid, Reach s → Reach (eval fuel s nid).2
  | attrS : ∀ s fuel nid name, Reach s → Reach (getattribute fuel s nid name).2
  | opS : ∀ s fuel nid t args kw rev, Reach s →
      Reach (apply_operator fuel s nid t args kw rev).2
  | callS : ∀ s fuel nid args kw, Reach s → Reach (call fuel s nid args kw).2
  | setS : ∀ s fuel nid v, Reach s → Reach (set fuel s nid v).2

/-! ## Concrete scenarios used by the claims -/

/-- Chain family rooted at the constant 3. -/
def constRootSys : Sys := init .constant (.int 3) []

/-- Building chain = root * 2 (the node produced is id 2; id 1 is the
accessor-resolution copy of the root). -/
def chainBuild := apply_operator 32 constRootSys 0 .mul [.val (.int 2)] [] false

/-- First evaluation of the chain. -/
def chainEval1 := eval 32 chainBuild.2 2

/-- Building an independent sibling chain root * 3 from the same root. -/
def siblingBuild := apply_operator 32 chainEval1.2 0 .mul [.val (.int 3)] [] false

/-- First evaluation of the sibling chain (node 4). -/
def siblingEval1 := eval 32 siblingBuild.2 4

/-- Overriding the root with 10 via set on the root node. -/
def setRoot10 := set 8 siblingEval1.2 0 (.int 10)

/-- Re-evaluating the first chain after the set. -/
def chainEval2 := eval 32 setRoot10.2 2

/-- Re-evaluating the sibling chain after the set. -/
def siblingEval2 := eval 32 chainEval2.2 4

/-- Chain family rooted at a dataframe-like record with a column named
col holding 3 (reachable both as an attribute and as an item). -/
def colRootSys : Sys :=
  init .constant (.recV [("col", .int 3)] [("col", .int 3)]) []

/-- The interception of expr.col: node 1 with pending accessor col. -/
def colAccess := getattribute 32 colRootSys 0 "col"

/-- Building expr.col > 1, which resolves the pending accessor. -/
def colGtBuild := apply_operator 32 colAccess.2 1 .gt [.val (.int 1)] [] false

/-- The same with a single-character column named A. -/
def singleRootSys : Sys :=
  init .constant (.recV [("A", .int 3)] [("A", .int 3)]) []

/-- The interception of expr.A. -/
def singleAccess := getattribute 32 singleRootSys 0 "A"

/-- Building expr.A > 1. -/
def singleGtBuild := apply_operator 32 singleAccess.2 1 .gt [.val (.int 1)] [] false

/-- Evaluating expr.A > 1 (node 3). -/
def singleGtEval := eval 32 singleGtBuild.2 3

/-- Chain family rooted at a record whose attribute A holds 7. -/
def recASys : Sys := init .constant (.recV [("A", .int 7)] []) []

/-- p = expr.A: node 1 carrying the pending accessor A. -/
def accessA := getattribute 32 recASys 0 "A"

/-- First eval of p. -/
def evalA1 := eval 32 accessA.2 1

/-- Second eval of p. -/
def evalA2 := eval 32 evalA1.2 1

/-- Chain family rooted at the list [10, 20, 30]. -/
def headRootSys : Sys := init .constant (.listV [.int 10, .int 20, .int 30]) []

/-- The interception of root.head: node 1 with pending accessor head. -/
def headAccess := getattribute 32 headRootSys 0 "head"

/-- root.head(2): nodes 2 (snapshot copy) and 3 (the method-call node). -/
def headCall := call 32 headAccess.2 1 [.val (.int 2)] []

/-- Applying * 2 to the already-built root.head(2) chain. -/
def headMulBuild := apply_operator 32 headCall.2 3 .mul [.val (.int 2)] [] false

/-- Chain family rooted at widget number 7 (value snapshot 3). -/
def widgetRootSys : Sys := init (.widgetRooted 7) (.int 3) []

/-- Widget-rooted chain root * 2 (derived node is id 2). -/
def widgetChainBuild := apply_operator 32 widgetRootSys 0 .mul [.val (.int 2)] [] false

/-- Constant-rooted family with two external widget parameters: parameter
5 owned by widget 1 (value 1) and parameter 6 owned by widget 2. -/
def opRootSys : Sys := init .constant (.int 1) [(5, .int 1), (6, .int 0)]

/-- root + widgetOne.value (parameter 5 as operand). -/
def opAddBuild := apply_operator 32 opRootSys 0 .add [.paramA ⟨5, .widgetOwner 1⟩] [] false

/-- Indexing the sum with a slice whose start is widgetTwo.value
(parameter 6 nested inside the slice operand). -/
def opSliceBuild :=
  apply_operator 32 opAddBuild.2 2 .getitem
    [.sliceA (.paramA ⟨6, .widgetOwner 2⟩) (.val .pynone) (.val .pynone)] [] false

/-- Building root + the string x on the constant root 3: evaluating the
resulting node (id 2) applies operator.add to an int and a str and raises
TypeError. -/
def addErrBuild := apply_operator 32 constRootSys 0 .add [.val (.str "x")] [] false

/-- Reverse-operand application 5 + expr (via __radd__) on the constant
root 3. -/
def radd5Build := apply_operator 32 constRootSys 0 .add [.val (.int 5)] [] true

/-- Evaluating 5 + expr. -/
def radd5Eval := eval 32 radd5Build.2 2

/-- Forward application expr + 5 on the constant root 3. -/
def add5Build := apply_operator 32 constRootSys 0 .add [.val (.int 5)] [] false

/-- Evaluating expr + 5. -/
def add5Eval := eval 32 add5Build.2 2

/-- Evaluating the failing chain root + the string x (node 2). -/
def addErrEval := eval 32 addErrBuild.2 2

/-! ## Theorems -/

/-- C1: resolving a pending accessor stores the accessor string itself in
the operation's args slot, so _eval_operation iterates its characters:
combining expr.col (a three-character accessor) with an operator makes
operator.getitem receive the characters c, o, l as separate arguments and
raise TypeError (here already while the operator node is being built,
since the attribute access that clones the node evaluates it), instead of
evaluating getitem(value, col) as the claim requires; with a
single-character accessor the same path happens to pass the whole name
and (expr.A > 1) evaluates to True as intended. -/
theorem accessor_args_string_type_error :
  colAccess.1 = .ok 1 ∧
  colGtBuild.1 = .error .typeError ∧
  singleGtBuild.1 = .ok 3 ∧
  singleGtEval.1 = .ok (.boolV true) :=
  ⟨rfl, rfl, rfl, rfl⟩

/-- C3: with root = constant(3), chain = root * 2 evaluates to 6; a
sibling chain root * 3 built from the same root evaluates to 9; after
root.set(10) both chains observe the new shared root and evaluate to 20
and 30 on their next eval. -/
theorem constant_root_set_propagates_to_chains :
  chainEval1.1 = .ok (.int 6) ∧
  siblingEval1.1 = .ok (.int 9) ∧
  setRoot10.1 = .ok () ∧
  chainEval2.1 = .ok (.int 20) ∧
  siblingEval2.1 = .ok (.int 30) :=
  ⟨rfl, rfl, rfl, rfl, rfl⟩

/-- C2 counterexample: for p = expr.A over a record whose attribute A is
7, the first eval returns the attribute value 7 but caches the record
itself, and the second eval returns the cached record — two consecutive
eval calls with no intervening change return different results, refuting
the claim at this input. -/
theorem pending_accessor_consecutive_evals_differ :
  evalA1.1 = .ok (.int 7) ∧
  evalA2.1 = .ok (.recV [("A", .int 7)] []) ∧
  evalA1.1 ≠ evalA2.1 ∧
  (evalA1.2.nodes[1]?).map (fun nd => nd.current) = some (.recV [("A", .int 7)] []) := by
  refine ⟨rfl, rfl, ?_, rfl⟩
  have h1 : evalA1.1 = .ok (.int 7) := rfl
  have h2 : evalA2.1 = .ok (.recV [("A", .int 7)] []) := rfl
  rw [h1, h2]
  simp

/-- C7 counterexample: resolving the accessor in p = expr.A copies the
root, producing a reachable node (id 1) whose previous link is none while
its depth is 1, so previous = none does not characterize the depth-0
chain root. -/
theorem root_copy_has_no_prev_and_depth_one :
  (accessA.2.nodes[1]?).map (fun nd => (nd.prev, nd.depth)) = some (none, 1) ∧
  ¬ (∀ (i : Nat) (nd : Node), accessA.2.nodes[i]? = some nd →
       nd.prev = none → nd.depth = 0) := by
  refine ⟨rfl, fun h => ?_⟩
  have h1 : (accessA.2.nodes[1]?).map (fun nd => (nd.prev, nd.depth)) = some (none, 1) := rfl
  cases hnd : accessA.2.nodes[1]? with
  | none => rw [hnd] at h1; simp at h1
  | some nd =>
    rw [hnd] at h1
    simp at h1
    have h0 := h 1 nd hnd h1.1
    omega

/-- C8 counterexample: building (root.head(2)) * 2 over the list
[10, 20, 30] invokes the recorded head method during construction (twice:
once when the operator application evaluates the dirty method node, once
when the freshly copied node is evaluated by the clone step), refuting
the claim that constructing the chain does not invoke head. -/
theorem operator_application_invokes_recorded_method :
  headMulBuild.2.log = [.meth "head", .meth "head"] ∧
  (LEntry.meth "head") ∈ headMulBuild.2.log := by
  have h : headMulBuild.2.log = [.meth "head", .meth "head"] := rfl
  exact ⟨h, by rw [h]; simp⟩

/-- C8 amended: the newly applied operator is never invoked while the new
node is being constructed — building (root.head(2)) * 2 leaves no mul
invocation in the trace, and building root * 2 directly over a constant
root invokes nothing at all — but construction does bring the existing
chain up to date, invoking its recorded method (head) because attribute
access on a dirty node evaluates it. -/
theorem construction_defers_new_operator_only :
  (LEntry.oper .mul) ∉ headMulBuild.2.log ∧
  chainBuild.2.log = [] ∧
  headCall.2.log = [] ∧
  headMulBuild.2.log = [.meth "head", .meth "head"] := by
  have h : headMulBuild.2.log = [.meth "head", .meth "head"] := rfl
  refine ⟨?_, rfl, rfl, h⟩
  rw [h]
  simp

/-- C9: widget discovery over operands works as claimed — the expression
(root + widgetOne.value) indexed by a slice whose start is
widgetTwo.value discovers exactly widgets 2 and 1, deduplicated, slice
component included — and the original widget-rooted instance reports its
root widget 7; but a node derived from the widget-rooted chain reports no
widgets at all, because the operation-attaching clone passes neither fn
nor wrapper, so __new__ rebinds the clone's fn to a fresh Wrapper and the
root widget is no longer among the derived node's own _fn_params,
refuting the claim that derived nodes still report the root widget. -/
theorem widget_discovery_drops_root_widget :
  widgets opSliceBuild.2 4 = [2, 1] ∧
  widgets widgetRootSys 0 = [7] ∧
  widgetChainBuild.1 = .ok 2 ∧
  widgets widgetChainBuild.2 2 = [] :=
  ⟨rfl, rfl, rfl, rfl⟩

/-- Helper: _eval_operation only reads the node store and appends to the
invocation trace; it never modifies the nodes. -/
theorem eval_operation_nodes (s : Sys) (obj : Val) (op : Operation) :
    ((eval_operation s obj op).2).nodes = s.nodes := by
  unfold eval_operation
  cases hf : op.fn with
  | method name => cases hl : lookupAttr obj name <;> simp [hl, addLog]
  | call t =>
    by_cases hr : op.reverse
    · simp only [hr, if_true]
      cases hl : (argsList op.args).map (resolveArg s) <;> simp [hl, addLog]
    · simp [hr, addLog]

/-- C4: evaluating an Operation Record holding a concrete binary callable
follows the reverse-operand protocol — with reverseOperands set the
callable receives the first resolved argument, then the input value, then
the remaining arguments, and without it the input value comes first — and
concretely 5 + expr with expr evaluating to 3 yields 8, as does
expr + 5. -/
theorem reverse_operand_evaluation (s : Sys) (obj : Val) (t : OpTag) (l : List Arg)
    (kw : List (String × Arg)) (r0 : Val) (rest : List Val)
    (h : l.map (resolveArg s) = r0 :: rest) :
    (eval_operation s obj { fn := .call t, args := .tuple l, kwargs := kw, reverse := true }).1
      = applyOp t (r0 :: obj :: rest) (kw.map (fun kv => (kv.1, resolveArg s kv.2))) ∧
    (eval_operation s obj { fn := .call t, args := .tuple l, kwargs := kw, reverse := false }).1
      = applyOp t (obj :: r0 :: rest) (kw.map (fun kv => (kv.1, resolveArg s kv.2))) ∧
    radd5Eval.1 = .ok (.int 8) ∧
    add5Eval.1 = .ok (.int 8) := by
  refine ⟨?_, ?_, rfl, rfl⟩ <;> simp [eval_operation, argsList, h]

/-- Witness for C4 at the concrete input of the claim: the wrapped value
3 as right operand of add with resolved argument 5. -/
theorem reverse_operand_evaluation_witness :
    ([Arg.val (Val.int 5)].map (resolveArg constRootSys) = [Val.int 5]) ∧
    (eval_operation constRootSys (.int 3)
       { fn := .call .add, args := .tuple [.val (.int 5)], kwargs := [], reverse := true }).1
      = applyOp .add [.int 5, .int 3] [] ∧
    radd5Eval.1 = .ok (.int 8) := by
  have h := reverse_operand_evaluation constRootSys (.int 3) .add [.val (.int 5)] []
    (.int 5) [] rfl
  exact ⟨rfl, h.1, h.2.2.1⟩

/-- C6: when the Operation Record of a dirty node raises during eval, the
exception propagates unmodified to the caller, the node entry is left
exactly as it was (cached value not updated, dirty still true), so the
next eval recomputes from scratch. -/
theorem operator_error_leaves_node_dirty (fuel : Nat) (s : Sys) {s1 : Sys} (nid p : Nat)
    {node : Node} {v : Val} {op : Operation} {e : Err}
    (hn : s.nodes[nid]? = some node) (hd : node.dirty = true)
    (hp : node.prev = some p)
    (hpe : eval fuel s p = (.ok v, s1))
    (hop : node.operation = some op)
    (hfail : (eval_operation s1 v op).1 = .error e)
    (hkeep : s1.nodes[nid]? = some node) :
    eval (fuel + 1) s nid = (.error e, (eval_operation s1 v op).2) ∧
    ((eval_operation s1 v op).2).nodes[nid]? = some node ∧
    node.dirty = true := by
  rcases hev : eval_operation s1 v op with ⟨r, s2⟩
  have hr : r = Except.error e := by
    rw [hev] at hfail
    exact hfail
  subst hr
  refine ⟨?_, ?_, hd⟩
  · simp [eval, hn, hd, hp, hpe, hop, hev]
  · have hsn := eval_operation_nodes s1 v op
    rw [hev] at hsn
    simp only [hev]
    rw [hsn]
    exact hkeep

/-- Witness for C6: evaluating root + the string x (TypeError from adding
an int and a str) propagates the TypeError and leaves node 2 dirty with
its cache untouched. -/
theorem operator_error_leaves_node_dirty_witness :
    (eval (31 + 1) addErrBuild.2 2).1 = .error .typeError ∧
    ((eval (31 + 1) addErrBuild.2 2).2.nodes[2]?).map (fun nd => (nd.dirty, nd.current))
      = some (true, .pynone) := by
  have h := operator_error_leaves_node_dirty 31 addErrBuild.2 2 1
    rfl rfl rfl rfl rfl rfl rfl
  refine ⟨by rw [h.1], ?_⟩
  rw [h.1]
  rfl

/-- C10: calling a node that has no pending accessor raises AttributeError
unless the node is the depth-0 chain root; calling the depth-0 root clones
the chain with the supplied keyword arguments (the new node is appended,
receiving the next id) and leaves the called node itself unchanged. -/
theorem call_without_pending_accessor_dispatch (fuel : Nat) (s : Sys) (nid : Nat)
    {node : Node} (args : List Arg) (kw : List (String × Arg))
    (hn : s.nodes[nid]? = some node) (hm : node.method = none)
    (hc : node.dirty = false) :
    (node.depth ≠ 0 → call fuel s nid args kw = (.error .attributeError, s)) ∧
    (node.depth = 0 →
       (call fuel s nid args kw).1 = .ok s.nodes.length ∧
       ((call fuel s nid args kw).2).nodes[nid]? = some node ∧
       ((call fuel s nid args kw).2).nodes.length = s.nodes.length + 1) := by
  have hlt : nid < s.nodes.length := by
    by_contra hge
    rw [List.getElem?_eq_none (le_of_not_lt hge)] at hn
    cases hn
  have htouch : touch fuel s nid = (.ok (), s) := by
    unfold touch
    rw [hn]
    simp [hc]
  constructor
  · intro hdep
    unfold call
    rw [hn]
    simp only [hm, htouch]
    rw [if_neg hdep]
  · intro hdep
    unfold call
    rw [hn]
    simp only [hm, htouch, if_pos hdep]
    unfold clone
    rw [hn]
    simp only [Bool.false_eq_true, if_false]
    refine ⟨by trivial, ?_, by simp⟩
    simp only [List.getElem?_append, if_pos hlt]
    exact hn

/-- Witness for C10, both branches: node 2 of the evaluated chain (depth
2, clean, no pending accessor) raises AttributeError when called, while
the chain root (depth 0, clean after the evaluation) is re-parameterized:
a new node 3 is appended and node 0 itself is untouched. -/
theorem call_without_pending_accessor_dispatch_witness :
    call 32 chainEval1.2 2 [] [] = (.error .attributeError, chainEval1.2) ∧
    (call 32 chainEval1.2 0 [] [("loc", .val (.str "left"))]).1 = .ok 3 ∧
    ((call 32 chainEval1.2 0 [] [("loc", .val (.str "left"))]).2).nodes.length = 4 := by
  have h2 := call_without_pending_accessor_dispatch 32 chainEval1.2 2 [] []
    rfl rfl rfl
  have h0 := call_without_pending_accessor_dispatch 32 chainEval1.2 0 []
    [("loc", .val (.str "left"))] rfl rfl rfl
  exact ⟨h2.1 (by decide), (h0.2 rfl).1, (h0.2 rfl).2.2⟩

/-! ## Structure-preservation lemmas -/

/-- Helper: a successful index lookup bounds the index. -/
theorem getSome_lt {α : Type} {l : List α} {i : Nat} {x : α} (h : l[i]? = some x) :
    i < l.length := by
  by_contra hge
  rw [List.getElem?_eq_none (le_of_not_lt hge)] at h
  cases h

/-- Helper: SigPres is reflexive. -/
theorem sigPres_refl (s : Sys) : SigPres s s := ⟨rfl, rfl⟩

/-- Helper: SigPres is transitive. -/
theorem sigPres_trans {a b c : Sys} (h1 : SigPres a b) (h2 : SigPres b c) : SigPres a c :=
  ⟨h2.1.trans h1.1, h2.2.trans h1.2⟩

/-- Helper: SigPres preserves every indexed signature. -/
theorem sigPres_get {s s' : Sys} (h : SigPres s s') (i : Nat) :
    (s'.nodes[i]?).map nodeSig = (s.nodes[i]?).map nodeSig := by
  have hc := congrArg (fun l => l[i]?) h.2
  simpa [List.getElem?_map] using hc

/-- Helper: SigPres preserves the node count. -/
theorem sigPres_length {s s' : Sys} (h : SigPres s s') :
    s'.nodes.length = s.nodes.length := by
  have hc := congrArg List.length h.2
  simpa using hc

/-- Helper: SigPres transports a node lookup to a signature-equal node. -/
theorem sigPres_get_some {s s' : Sys} (h : SigPres s s') {i : Nat} {nd : Node}
    (hg : s.nodes[i]? = some nd) :
    ∃ nd' : Node, s'.nodes[i]? = some nd' ∧ nodeSig nd' = nodeSig nd := by
  have hh := sigPres_get h i
  rw [hg] at hh
  cases hg' : s'.nodes[i]? with
  | none => rw [hg'] at hh; simp at hh
  | some nd' =>
    rw [hg'] at hh
    simp only [Option.map_some'] at hh
    exact ⟨nd', rfl, by injection hh⟩

/-- Helper: the result of updateN at the updated index. -/
theorem updateN_get_self (s : Sys) (nid : Nat) (f : Node → Node) :
    (updateN s nid f).nodes[nid]? = (s.nodes[nid]?).map f := by
  unfold updateN
  cases hg : s.nodes[nid]? with
  | none => simp [hg]
  | some nd =>
    have hlt := getSome_lt hg
    simp [List.getElem?_set, hlt, hg]

/-- Helper: updateN with a signature-preserving function is SigPres. -/
theorem updateN_sigPres (s : Sys) (nid : Nat) (f : Node → Node)
    (hf : ∀ nd, nodeSig (f nd) = nodeSig nd) : SigPres s (updateN s nid f) := by
  unfold updateN
  cases hg : s.nodes[nid]? with
  | none => exact sigPres_refl s
  | some nd =>
    refine ⟨rfl, ?_⟩
    apply List.ext_getElem?
    intro j
    simp only [List.getElem?_map, List.getElem?_set]
    by_cases hj : nid = j
    · subst hj
      have hlt := getSome_lt hg
      simp [hlt, hg, hf]
    · simp [hj]

/-- Helper: writing the cache preserves chain structure. -/
theorem setCache_sigPres (s : Sys) (nid : Nat) (v : Val) :
    SigPres s (setCache s nid v) :=
  updateN_sigPres s nid _ (fun nd => rfl)

/-- Helper: marking dirty preserves chain structure. -/
theorem markDirty_sigPres (s : Sys) (nid : Nat) :
    SigPres s (markDirty s nid) :=
  updateN_sigPres s nid _ (fun nd => rfl)

/-- Helper: _eval_operation preserves chain structure (it only appends to
the trace). -/
theorem eval_operation_sigPres (s : Sys) (obj : Val) (op : Operation) :
    SigPres s ((eval_operation s obj op).2) := by
  unfold eval_operation
  cases hf : op.fn with
  | method name => cases hl : lookupAttr obj name <;> simp [hl, addLog, SigPres]
  | call t =>
    by_cases hr : op.reverse
    · simp only [hr, if_true]
      cases hl : (argsList op.args).map (resolveArg s) <;> simp [hl, addLog, SigPres]
    · simp [hr, addLog, SigPres]

/-- Helper: eval never creates nodes and never alters chain structure,
pending accessors or parameter lists; only caches, dirty flags and the
trace change. -/
theorem eval_sigPres (fuel : Nat) : ∀ (s : Sys) (nid : Nat), SigPres s ((eval fuel s nid).2) := by
  induction fuel with
  | zero => intro s nid; exact sigPres_refl s
  | succ f ih =>
    intro s nid
    unfold eval
    cases hg : s.nodes[nid]? with
    | none => exact sigPres_refl s
    | some node =>
      dsimp only
      by_cases hd : node.dirty = false
      · rw [if_pos hd]
        exact sigPres_refl s
      · rw [if_neg hd]
        cases hprev : node.prev with
        | none =>
          dsimp only
          cases hop : node.operation with
          | none =>
            dsimp only
            cases hm : node.method <;> exact setCache_sigPres s nid s.sharedObj
          | some op =>
            dsimp only
            rcases heo : eval_operation s s.sharedObj op with ⟨r2, s2⟩
            have hP2 : SigPres s s2 := by
              have hx := eval_operation_sigPres s s.sharedObj op
              rw [heo] at hx
              exact hx
            cases r2 with
            | error e => exact hP2
            | ok obj =>
              dsimp only
              cases hm : node.method <;> exact sigPres_trans hP2 (setCache_sigPres s2 nid obj)
        | some p =>
          dsimp only
          rcases hpe : eval f s p with ⟨r1, s1⟩
          have hP1 : SigPres s s1 := by
            have hx := ih s p
            rw [hpe] at hx
            exact hx
          cases r1 with
          | error e => exact hP1
          | ok obj0 =>
            dsimp only
            cases hop : node.operation with
            | none =>
              dsimp only
              cases hm : node.method <;> exact sigPres_trans hP1 (setCache_sigPres s1 nid obj0)
            | some op =>
              dsimp only
              rcases heo : eval_operation s1 obj0 op with ⟨r2, s2⟩
              have hP2 : SigPres s1 s2 := by
                have hx := eval_operation_sigPres s1 obj0 op
                rw [heo] at hx
                exact hx
              cases r2 with
              | error e => exact sigPres_trans hP1 hP2
              | ok obj =>
                dsimp only
                cases hm : node.method <;>
                  exact sigPres_trans hP1 (sigPres_trans hP2 (setCache_sigPres s2 nid obj))

/-- Helper: after a successful cache write at nid the stored node is clean,
holds the written value, and keeps its pending-accessor slot; if the node
had no pending accessor, the value eval returned is the cached value. -/
theorem cache_step_ok {s s2 : Sys} {nid : Nat} {node : Node} {obj v : Val} {s' : Sys}
    (hg : s.nodes[nid]? = some node)
    (hP : SigPres s s2)
    (hm : (node.method = none ∧ v = obj) ∨ (∃ m : String, node.method = some m))
    (hs' : s' = setCache s2 nid obj) :
    ∃ nd' : Node, s'.nodes[nid]? = some nd' ∧ nd'.dirty = false ∧
      (nd'.method = none → nd'.current = v) := by
  obtain ⟨nd2, hg2, hsig⟩ := sigPres_get_some hP hg
  have hmeq : nd2.method = node.method := by
    have hc := congrArg (fun t => t.2.2.2.1) hsig
    simpa [nodeSig] using hc
  refine ⟨{ nd2 with current := obj, dirty := false }, ?_, rfl, ?_⟩
  · rw [hs']
    unfold setCache
    rw [updateN_get_self, hg2]
    rfl
  · intro hnone
    rcases hm with ⟨hmn, hv⟩ | ⟨m, hms⟩
    · simpa using hv.symm
    · have : nd2.method = none := hnone
      rw [hmeq, hms] at this
      cases this

/-- Helper: a successful eval leaves the evaluated node clean, and when
the node carries no pending accessor the cached value is exactly the
value returned. -/
theorem eval_ok_cache (fuel : Nat) : ∀ (s : Sys) (nid : Nat) (v : Val) (s' : Sys),
    eval fuel s nid = (.ok v, s') →
    ∃ nd' : Node, s'.nodes[nid]? = some nd' ∧ nd'.dirty = false ∧
      (nd'.method = none → nd'.current = v) := by
  cases fuel with
  | zero => intro s nid v s' h; simp [eval] at h
  | succ f =>
    intro s nid v s' h
    unfold eval at h
    rcases hg : s.nodes[nid]? with _ | node
    · rw [hg] at h
      simp at h
    · rw [hg] at h
      dsimp only at h
      by_cases hd : node.dirty = false
      · rw [if_pos hd] at h
        injection h with h1 h2
        injection h1 with h1
        subst h2
        exact ⟨node, hg, hd, fun _ => h1⟩
      · rw [if_neg hd] at h
        rcases hprev : node.prev with _ | p
        · rw [hprev] at h
          dsimp only at h
          rcases hop : node.operation with _ | op
          · rw [hop] at h
            dsimp only at h
            rcases hm : node.method with _ | m
            · rw [hm] at h
              dsimp only at h
              injection h with h1 h2
              injection h1 with h1
              exact cache_step_ok hg (sigPres_refl s) (Or.inl ⟨hm, h1.symm⟩) h2.symm
            · rw [hm] at h
              dsimp only at h
              injection h with h1 h2
              exact cache_step_ok hg (sigPres_refl s) (Or.inr ⟨m, hm⟩) h2.symm
          · rw [hop] at h
            dsimp only at h
            rcases heo : eval_operation s s.sharedObj op with ⟨r2, s2⟩
            have hP2 : SigPres s s2 := by
              have hx := eval_operation_sigPres s s.sharedObj op
              rw [heo] at hx
              exact hx
            rw [heo] at h
            rcases r2 with e | obj
            · dsimp only at h
              injection h with h1 h2
              cases h1
            · dsimp only at h
              rcases hm : node.method with _ | m
              · rw [hm] at h
                dsimp only at h
                injection h with h1 h2
                injection h1 with h1
                exact cache_step_ok hg hP2 (Or.inl ⟨hm, h1.symm⟩) h2.symm
              · rw [hm] at h
                dsimp only at h
                injection h with h1 h2
                exact cache_step_ok hg hP2 (Or.inr ⟨m, hm⟩) h2.symm
        · rw [hprev] at h
          dsimp only at h
          rcases hpe : eval f s p with ⟨r1, s1⟩
          have hP1 : SigPres s s1 := by
            have hx := eval_sigPres f s p
            rw [hpe] at hx
            exact hx
          rw [hpe] at h
          rcases r1 with e | obj0
          · dsimp only at h
            injection h with h1 h2
            cases h1
          · dsimp only at h
            rcases hop : node.operation with _ | op
            · rw [hop] at h
              dsimp only at h
              rcases hm : node.method with _ | m
              · rw [hm] at h
                dsimp only at h
                injection h with h1 h2
                injection h1 with h1
                exact cache_step_ok hg hP1 (Or.inl ⟨hm, h1.symm⟩) h2.symm
              · rw [hm] at h
                dsimp only at h
                injection h with h1 h2
                exact cache_step_ok hg hP1 (Or.inr ⟨m, hm⟩) h2.symm
            · rw [hop] at h
              dsimp only at h
              rcases heo : eval_operation s1 obj0 op with ⟨r2, s2⟩
              have hP2 : SigPres s s2 := by
                have hx := eval_operation_sigPres s1 obj0 op
                rw [heo] at hx
                exact sigPres_trans hP1 hx
              rw [heo] at h
              rcases r2 with e | obj
              · dsimp only at h
                injection h with h1 h2
                cases h1
              · dsimp only at h
                rcases hm : node.method with _ | m
                · rw [hm] at h
                  dsimp only at h
                  injection h with h1 h2
                  injection h1 with h1
                  exact cache_step_ok hg hP2 (Or.inl ⟨hm, h1.symm⟩) h2.symm
                · rw [hm] at h
                  dsimp only at h
                  injection h with h1 h2
                  exact cache_step_ok hg hP2 (Or.inr ⟨m, hm⟩) h2.symm

/-- C2 amended: memoization holds for every node with no pending accessor.
If eval returns a value for such a node, a second eval (with any fuel)
returns the identical value and leaves the state untouched — in
particular the underlying operator is not re-invoked (the trace, part of
the state, is unchanged). -/
theorem eval_memoization_without_pending_accessor (fuel f2 : Nat) (s : Sys) (nid : Nat)
    (v : Val) (s' : Sys)
    (h : eval fuel s nid = (.ok v, s'))
    (hm : ∀ nd : Node, s'.nodes[nid]? = some nd → nd.method = none) :
    eval (f2 + 1) s' nid = (.ok v, s') := by
  obtain ⟨nd', hg, hdirty, hcur⟩ := eval_ok_cache fuel s nid v s' h
  have hcurv := hcur (hm nd' hg)
  unfold eval
  rw [hg]
  dsimp only
  rw [if_pos hdirty, hcurv]

/-- Witness for C2 amended: the chain root * 2 (no pending accessor)
evaluates to 6, and re-evaluating the already-evaluated state returns 6
again with the state unchanged. -/
theorem eval_memoization_without_pending_accessor_witness :
    eval (9 + 1) chainEval1.2 2 = (.ok (.int 6), chainEval1.2) := by
  have hm : ∀ nd : Node, chainEval1.2.nodes[2]? = some nd → nd.method = none := by
    intro nd hnd
    have hx : (chainEval1.2.nodes[2]?).map (fun nd => nd.method) = some none := rfl
    rw [hnd] at hx
    simpa using hx
  exact eval_memoization_without_pending_accessor 32 9 chainBuild.2 2 (.int 6)
    chainEval1.2 rfl hm

/-! ## Good-system preservation -/

/-- Helper: SigPres is symmetric. -/
theorem sigPres_symm {s s' : Sys} (h : SigPres s s') : SigPres s' s :=
  ⟨h.1.symm, h.2.symm⟩

/-- Helper: signature equality gives equality of every tracked field. -/
theorem nodeSig_fields {a b : Node} (h : nodeSig a = nodeSig b) :
    a.prev = b.prev ∧ a.depth = b.depth ∧ a.wrapper = b.wrapper ∧
    a.method = b.method ∧ a.fnParams = b.fnParams ∧ a.params = b.params := by
  simp only [nodeSig, Prod.mk.injEq] at h
  exact ⟨h.1, h.2.1, h.2.2.1, h.2.2.2.1, h.2.2.2.2.1, h.2.2.2.2.2⟩

/-- Helper: one unfolding step of addParams. -/
theorem addParams_cons (acc : List PRef) (p : PRef) (ps : List PRef) :
    addParams acc (p :: ps) =
      addParams (if acc.any (samePid p) then acc else acc ++ [p]) ps := rfl

/-- Helper: addParams never loses a root-parameter entry already present. -/
theorem addParams_any_mono : ∀ (ps acc : List PRef),
    acc.any pidZero = true → (addParams acc ps).any pidZero = true := by
  intro ps
  induction ps with
  | nil => intro acc h; exact h
  | cons p rest ih =>
    intro acc h
    rw [addParams_cons]
    by_cases hg : acc.any (samePid p) = true
    · rw [if_pos hg]
      exact ih acc h
    · rw [if_neg hg]
      apply ih
      rw [List.any_append, h]
      rfl

/-- Helper: addParams introduces a root-parameter entry whenever the added
list contains one. -/
theorem addParams_any_right : ∀ (ps acc : List PRef),
    ps.any pidZero = true → (addParams acc ps).any pidZero = true := by
  intro ps
  induction ps with
  | nil => intro acc h; cases h
  | cons p rest ih =>
    intro acc h
    rw [addParams_cons]
    rw [List.any_cons] at h
    by_cases hp : pidZero p = true
    · have hp0 : p.pid = 0 := by simpa [pidZero] using hp
      have hsame : samePid p = pidZero := by
        funext q
        simp [samePid, pidZero, hp0]
      rw [hsame]
      by_cases hg : acc.any pidZero = true
      · rw [if_pos hg]
        exact addParams_any_mono rest acc hg
      · rw [if_neg hg]
        apply addParams_any_mono
        rw [List.any_append]
        simp [hp]
    · have hrest : rest.any pidZero = true := by
        rcases Bool.or_eq_true_iff.mp h with h1 | h2
        · exact absurd h1 hp
        · exact h2
      by_cases hg : acc.any (samePid p) = true
      · rw [if_pos hg]
        exact ih acc hrest
      · rw [if_neg hg]
        exact ih _ hrest

/-- Helper: GoodSys transfers along SigPres. -/
theorem goodSys_of_sigPres {s s' : Sys} (hP : SigPres s s') (hG : GoodSys s) :
    GoodSys s' := by
  obtain ⟨⟨n0, hg0, hd0, hf0⟩, hAll⟩ := hG
  constructor
  · obtain ⟨n0', hg0', hsig⟩ := sigPres_get_some hP hg0
    obtain ⟨_, hdep, _, _, hfp, _⟩ := nodeSig_fields hsig
    exact ⟨n0', hg0', by rw [hdep]; exact hd0, by rw [hfp]; exact hf0⟩
  · intro i nd hg
    obtain ⟨nd0, hgS, hsig⟩ := sigPres_get_some (sigPres_symm hP) hg
    obtain ⟨hprev, hdep, hwrap, _, _, hpar⟩ := nodeSig_fields hsig
    obtain ⟨h1, h2, h3, h4⟩ := hAll i nd0 hgS
    refine ⟨?_, ?_, ?_, ?_⟩
    · intro j hj
      exact h1 j (by rw [hprev]; exact hj)
    · intro hdz
      rw [← hprev]
      exact h2 (by rw [hdep]; exact hdz)
    · intro hpn
      rw [← hwrap, hP.1]
      exact h3 (by rw [hprev]; exact hpn)
    · rw [← hpar]
      exact h4

/-- Helper: updateN with a function preserving chain-relevant fields
preserves GoodSys. -/
theorem updateN_goodSys (s : Sys) (nid : Nat) (f : Node → Node)
    (hf : ∀ nd, (f nd).prev = nd.prev ∧ (f nd).depth = nd.depth ∧
      (f nd).wrapper = nd.wrapper ∧ (f nd).fnParams = nd.fnParams ∧
      (f nd).params = nd.params)
    (hG : GoodSys s) : GoodSys (updateN s nid f) := by
  obtain ⟨⟨n0, hg0, hd0, hf0⟩, hAll⟩ := hG
  have hget : ∀ i : Nat, (updateN s nid f).nodes[i]? =
      if nid = i then (s.nodes[i]?).map f else s.nodes[i]? := by
    intro i
    unfold updateN
    cases hg : s.nodes[nid]? with
    | none =>
      by_cases hi : nid = i
      · subst hi; simp [hg]
      · simp [hi]
    | some nd =>
      have hlt := getSome_lt hg
      by_cases hi : nid = i
      · subst hi; simp [List.getElem?_set, hlt, hg]
      · simp [List.getElem?_set, hi]
  have hrk : (updateN s nid f).rootKind = s.rootKind := by
    unfold updateN
    cases hg : s.nodes[nid]? <;> rfl
  constructor
  · rw [hget 0]
    by_cases h0 : nid = 0
    · rw [if_pos h0, hg0]
      refine ⟨f n0, rfl, ?_, ?_⟩
      · rw [(hf n0).2.1]; exact hd0
      · rw [(hf n0).2.2.2.1]; exact hf0
    · rw [if_neg h0]
      exact ⟨n0, hg0, hd0, hf0⟩
  · intro i nd hg
    rw [hget i] at hg
    by_cases hi : nid = i
    · rw [if_pos hi] at hg
      cases hgo : s.nodes[i]? with
      | none => rw [hgo] at hg; cases hg
      | some nd0 =>
        rw [hgo] at hg
        have hnd : nd = f nd0 := by
          simpa using hg.symm
        subst hnd
        obtain ⟨h1, h2, h3, h4⟩ := hAll i nd0 hgo
        rw [hrk]
        refine ⟨?_, ?_, ?_, ?_⟩
        · intro j hj; exact h1 j (by rw [← (hf nd0).1]; exact hj)
        · intro hdz
          rw [(hf nd0).1]
          exact h2 (by rw [← (hf nd0).2.1]; exact hdz)
        · intro hpn
          rw [(hf nd0).2.2.1]
          exact h3 (by rw [← (hf nd0).1]; exact hpn)
        · rw [(hf nd0).2.2.2.2]; exact h4
    · rw [if_neg hi] at hg
      rw [hrk]
      exact hAll i nd hg

/-- Helper: resetting a pending accessor preserves GoodSys. -/
theorem setMeth_goodSys (s : Sys) (nid : Nat) (m : Option String) (hG : GoodSys s) :
    GoodSys (setMeth s nid m) :=
  updateN_goodSys s nid _ (fun nd => ⟨rfl, rfl, rfl, rfl, rfl⟩) hG

/-- Helper: the getattribute refresh step preserves chain structure. -/
theorem touch_sigPres (fuel : Nat) (s : Sys) (nid : Nat) :
    SigPres s ((touch fuel s nid).2) := by
  unfold touch
  cases hg : s.nodes[nid]? with
  | none => exact sigPres_refl s
  | some node =>
    dsimp only
    by_cases hd : node.dirty = true
    · rw [if_pos hd]
      rcases hpe : eval fuel s nid with ⟨r, s1⟩
      have hx := eval_sigPres fuel s nid
      rw [hpe] at hx
      cases r <;> exact hx
    · rw [if_neg hd]
      exact sigPres_refl s

/-- Helper: both branches of _clone preserve GoodSys: the appended node
points at an earlier parent (or inherits the root's absent parent together
with its Wrapper), sits at positive depth, and watches the root
parameter. -/
theorem clone_goodSys (s : Sys) (nid : Nat) (op : Option Operation) (copy : Bool)
    (kw : List (String × Arg)) (hG : GoodSys s) :
    GoodSys ((clone s nid op copy kw).2) := by
  obtain ⟨⟨n0, hg0, hd0, hf0⟩, hAll⟩ := hG
  unfold clone
  cases hg : s.nodes[nid]? with
  | none => exact ⟨⟨n0, hg0, hd0, hf0⟩, hAll⟩
  | some node =>
    dsimp only
    have hlt := getSome_lt hg
    have h0lt := getSome_lt hg0
    obtain ⟨hn1, hn2, hn3, hn4⟩ := hAll nid node hg
    cases copy with
    | true =>
      rw [if_pos rfl]
      constructor
      · refine ⟨n0, ?_, hd0, hf0⟩
        rw [List.getElem?_append, if_pos h0lt]
        exact hg0
      · intro i nd hgi
        by_cases hi : i < s.nodes.length
        · rw [List.getElem?_append, if_pos hi] at hgi
          exact hAll i nd hgi
        · rw [List.getElem?_append, if_neg hi] at hgi
          by_cases hieq : i = s.nodes.length
          · subst hieq
            simp only [Nat.sub_self, List.getElem?_cons_zero] at hgi
            injection hgi with hgi
            subst hgi
            refine ⟨?_, ?_, ?_, ?_⟩
            · intro j hj
              exact lt_of_lt_of_le (hn1 j hj) (le_of_lt hlt)
            · intro hdz; simp at hdz
            · intro hpn; exact hn3 hpn
            · exact hn4
          · have : s.nodes.length < i := lt_of_le_of_ne (le_of_not_lt hi) (Ne.symm hieq)
            rw [List.getElem?_eq_none (by simp; omega)] at hgi
            cases hgi
    | false =>
      simp only [Bool.false_eq_true, if_false]
      constructor
      · refine ⟨n0, ?_, hd0, hf0⟩
        rw [List.getElem?_append, if_pos h0lt]
        exact hg0
      · intro i nd hgi
        by_cases hi : i < s.nodes.length
        · rw [List.getElem?_append, if_pos hi] at hgi
          exact hAll i nd hgi
        · rw [List.getElem?_append, if_neg hi] at hgi
          by_cases hieq : i = s.nodes.length
          · subst hieq
            simp only [Nat.sub_self, List.getElem?_cons_zero] at hgi
            injection hgi with hgi
            subst hgi
            refine ⟨?_, ?_, ?_, ?_⟩
            · intro j hj
              have : j = nid := by simpa using hj.symm
              subst this
              exact hlt
            · intro hdz; simp at hdz
            · intro hpn; simp at hpn
            · exact addParams_any_mono _ _ (addParams_any_right _ _ hn4)
          · have : s.nodes.length < i := lt_of_le_of_ne (le_of_not_lt hi) (Ne.symm hieq)
            rw [List.getElem?_eq_none (by simp; omega)] at hgi
            cases hgi

/-- Helper: firing the root-parameter watchers preserves chain structure
(it rewrites the Wrapper slot, the shared cell and dirty flags only). -/
theorem fire_sigPres (s : Sys) (v : Val) : SigPres s (fireWrapperSet s v) := by
  unfold fireWrapperSet
  dsimp only
  constructor
  · split <;> rfl
  · split <;>
    · rw [List.map_map]
      apply List.map_congr_left
      intro nd _
      by_cases h : nd.params.any (fun p => p.pid == 0) = true
      · simp only [Function.comp_apply, h, if_true]
        rfl
      · simp only [Function.comp_apply, h, if_false]
        rfl

/-- Helper: the set walk preserves GoodSys. -/
theorem setGo_goodSys (fuel : Nat) : ∀ (s : Sys) (nid : Nat) (v : Val),
    GoodSys s → GoodSys ((setGo fuel s nid v).2) := by
  induction fuel with
  | zero => intro s nid v hG; exact hG
  | succ f ih =>
    intro s nid v hG
    unfold setGo
    cases hg : s.nodes[nid]? with
    | none => exact hG
    | some node =>
      dsimp only
      have hG1 : GoodSys (markDirty s nid) :=
        goodSys_of_sigPres (markDirty_sigPres s nid) hG
      cases hprev : node.prev with
      | some p => exact ih _ p v hG1
      | none =>
        dsimp only
        cases hw : node.wrapper with
        | none => exact hG1
        | some k => exact goodSys_of_sigPres (fire_sigPres _ v) hG1

/-- Helper: _resolve_accessor preserves GoodSys. -/
theorem resolve_accessor_goodSys (fuel : Nat) (s : Sys) (nid : Nat) (hG : GoodSys s) :
    GoodSys ((resolve_accessor fuel s nid).2) := by
  unfold resolve_accessor
  cases hg : s.nodes[nid]? with
  | none => exact hG
  | some node =>
    dsimp only
    rcases ht : touch fuel s nid with ⟨r, s1⟩
    have hG1 : GoodSys s1 := by
      have hx := touch_sigPres fuel s nid
      rw [ht] at hx
      exact goodSys_of_sigPres hx hG
    cases hm : node.method with
    | none =>
      cases r with
      | error e => exact hG1
      | ok u =>
        dsimp only
        rcases hc : clone s1 nid none true [] with ⟨m2, s2⟩
        have hx := clone_goodSys s1 nid none true [] hG1
        rw [hc] at hx
        exact hx
    | some mth =>
      cases r with
      | error e => exact setMeth_goodSys s1 nid none hG1
      | ok u =>
        dsimp only
        rcases hc : clone s1 nid
          (some { fn := .call .getitem, args := .rawStr mth, kwargs := [], reverse := false })
          false [] with ⟨m2, s2⟩
        have hx := clone_goodSys s1 nid
          (some { fn := .call .getitem, args := .rawStr mth, kwargs := [], reverse := false })
          false [] hG1
        rw [hc] at hx
        exact setMeth_goodSys s2 nid none hx

/-- Helper: the getattribute interception preserves GoodSys. -/
theorem getattribute_goodSys (fuel : Nat) (s : Sys) (nid : Nat) (name : String)
    (hG : GoodSys s) : GoodSys ((getattribute fuel s nid name).2) := by
  unfold getattribute
  rcases ht : touch fuel s nid with ⟨r, s1⟩
  have hG1 : GoodSys s1 := by
    have hx := touch_sigPres fuel s nid
    rw [ht] at hx
    exact goodSys_of_sigPres hx hG
  cases r with
  | error e => exact hG1
  | ok u =>
    dsimp only
    cases hg : s1.nodes[nid]? with
    | none => exact hG1
    | some node =>
      dsimp only
      split
      · rcases hra : resolve_accessor fuel s1 nid with ⟨r2, s2⟩
        have hG2 : GoodSys s2 := by
          have hx := resolve_accessor_goodSys fuel s1 nid hG1
          rw [hra] at hx
          exact hx
        cases r2 with
        | error e => exact hG2
        | ok m => exact setMeth_goodSys s2 m (some name) hG2
      · exact hG1

/-- Helper: _apply_operator preserves GoodSys. -/
theorem apply_operator_goodSys (fuel : Nat) (s : Sys) (nid : Nat) (t : OpTag)
    (args : List Arg) (kw : List (String × Arg)) (rev : Bool) (hG : GoodSys s) :
    GoodSys ((apply_operator fuel s nid t args kw rev).2) := by
  unfold apply_operator
  rcases ht : touch fuel s nid with ⟨r, s1⟩
  have hG1 : GoodSys s1 := by
    have hx := touch_sigPres fuel s nid
    rw [ht] at hx
    exact goodSys_of_sigPres hx hG
  cases r with
  | error e => exact hG1
  | ok u =>
    dsimp only
    rcases hra : resolve_accessor fuel s1 nid with ⟨r2, s2⟩
    have hG2 : GoodSys s2 := by
      have hx := resolve_accessor_goodSys fuel s1 nid hG1
      rw [hra] at hx
      exact hx
    cases r2 with
    | error e => exact hG2
    | ok m =>
      dsimp only
      rcases ht2 : touch fuel s2 m with ⟨r3, s3⟩
      have hG3 : GoodSys s3 := by
        have hx := touch_sigPres fuel s2 m
        rw [ht2] at hx
        exact goodSys_of_sigPres hx hG2
      cases r3 with
      | error e => exact hG3
      | ok u2 =>
        dsimp only
        rcases hc : clone s3 m
          (some { fn := .call t, args := .tuple args, kwargs := kw, reverse := rev })
          false [] with ⟨c, s4⟩
        have hx := clone_goodSys s3 m
          (some { fn := .call t, args := .tuple args, kwargs := kw, reverse := rev })
          false [] hG3
        rw [hc] at hx
        exact hx

/-- Helper: __call__ preserves GoodSys. -/
theorem call_goodSys (fuel : Nat) (s : Sys) (nid : Nat) (args : List Arg)
    (kw : List (String × Arg)) (hG : GoodSys s) :
    GoodSys ((call fuel s nid args kw).2) := by
  unfold call
  cases hg : s.nodes[nid]? with
  | none => exact hG
  | some node =>
    dsimp only
    rcases ht : touch fuel s nid with ⟨r, s1⟩
    have hG1 : GoodSys s1 := by
      have hx := touch_sigPres fuel s nid
      rw [ht] at hx
      exact goodSys_of_sigPres hx hG
    cases hm : node.method with
    | none =>
      cases r with
      | error e => exact hG1
      | ok u =>
        dsimp only
        split
        · rcases hc : clone s1 nid none false kw with ⟨c, s2⟩
          have hx := clone_goodSys s1 nid none false kw hG1
          rw [hc] at hx
          exact hx
        · exact hG1
    | some mth =>
      cases r with
      | error e => exact hG1
      | ok u =>
        dsimp only
        rcases hc1 : clone s1 nid none true [] with ⟨c1, s2⟩
        have hG2 : GoodSys s2 := by
          have hx := clone_goodSys s1 nid none true [] hG1
          rw [hc1] at hx
          exact hx
        rcases ht2 : touch fuel s2 c1 with ⟨r3, s3⟩
        have hG3 : GoodSys s3 := by
          have hx := touch_sigPres fuel s2 c1
          rw [ht2] at hx
          exact goodSys_of_sigPres hx hG2
        cases r3 with
        | error e => exact setMeth_goodSys s3 c1 none hG3
        | ok u2 =>
          dsimp only
          rcases hc2 : clone s3 c1
            (some { fn := .method mth, args := .tuple args, kwargs := kw, reverse := false })
            false [] with ⟨c2, s4⟩
          have hx := clone_goodSys s3 c1
            (some { fn := .method mth, args := .tuple args, kwargs := kw, reverse := false })
            false [] hG3
          rw [hc2] at hx
          exact setMeth_goodSys s4 c1 none hx

/-- Helper: the original instance is a good system. -/
theorem init_goodSys (rk : RootKind) (v : Val) (pv : List (Nat × Val)) :
    GoodSys (init rk v pv) := by
  constructor
  · cases rk <;> exact ⟨_, rfl, rfl, rfl⟩
  · intro i nd hg
    unfold init at hg
    dsimp only at hg
    cases i with
    | zero =>
      simp only [List.getElem?_cons_zero] at hg
      injection hg with hg
      subst hg
      cases rk <;>
        exact ⟨fun j hj => by simp at hj, fun _ => rfl, fun _ => rfl, rfl⟩
    | succ n =>
      simp at hg

/-- Helper: every state reachable through the public API is a good
system. -/
theorem reach_goodSys {s : Sys} (h : Reach s) : GoodSys s := by
  induction h with
  | init rk v pv => exact init_goodSys rk v pv
  | evalS s fuel nid hR ih => exact goodSys_of_sigPres (eval_sigPres fuel s nid) ih
  | attrS s fuel nid name hR ih => exact getattribute_goodSys fuel s nid name ih
  | opS s fuel nid t args kw rev hR ih =>
      exact apply_operator_goodSys fuel s nid t args kw rev ih
  | callS s fuel nid args kw hR ih => exact call_goodSys fuel s nid args kw ih
  | setS s fuel nid v hR ih => exact setGo_goodSys fuel s nid v ih

/-! ## Specification of the set walk -/

/-- Helper: updateN away from the updated index. -/
theorem updateN_get_ne (s : Sys) (nid : Nat) (f : Node → Node) {j : Nat}
    (h : nid ≠ j) : (updateN s nid f).nodes[j]? = s.nodes[j]? := by
  unfold updateN
  cases hg : s.nodes[nid]? with
  | none => rfl
  | some nd => simp [List.getElem?_set, h]

/-- Helper: the walk recorded by pathOf only depends on chain structure. -/
theorem pathOf_sigPres : ∀ (fuel : Nat) {s s' : Sys}, SigPres s s' →
    ∀ (nid : Nat), pathOf fuel s' nid = pathOf fuel s nid := by
  intro fuel
  induction fuel with
  | zero => intro s s' h nid; rfl
  | succ f ih =>
    intro s s' h nid
    unfold pathOf
    cases hg : s.nodes[nid]? with
    | none =>
      have hh := sigPres_get h nid
      rw [hg] at hh
      cases hg' : s'.nodes[nid]? with
      | none => rfl
      | some nd' => rw [hg'] at hh; simp at hh
    | some nd =>
      obtain ⟨nd', hg', hsig⟩ := sigPres_get_some h hg
      rw [hg']
      dsimp only
      obtain ⟨hprev, _, _, _, _, _⟩ := nodeSig_fields hsig
      rw [hprev]
      cases nd.prev with
      | none => rfl
      | some p =>
        dsimp only
        rw [ih h p]

/-- Helper: marking one node dirty keeps every already-dirty node dirty. -/
theorem markDirty_dirty_mono (s : Sys) (nid : Nat) {i : Nat}
    (h : (s.nodes[i]?).map (fun nd => nd.dirty) = some true) :
    (((markDirty s nid).nodes[i]?).map (fun nd => nd.dirty)) = some true := by
  by_cases hi : nid = i
  · subst hi
    unfold markDirty
    rw [updateN_get_self]
    cases hg : s.nodes[nid]? with
    | none => rw [hg] at h; cases h
    | some nd => rfl
  · unfold markDirty
    rw [updateN_get_ne s nid _ hi]
    exact h

/-- Helper: marking one node dirty makes that node dirty. -/
theorem markDirty_dirty_self (s : Sys) (nid : Nat) {nd : Node}
    (hg : s.nodes[nid]? = some nd) :
    (((markDirty s nid).nodes[nid]?).map (fun nd => nd.dirty)) = some true := by
  unfold markDirty
  rw [updateN_get_self, hg]
  rfl

/-- Helper: firing the watchers keeps every dirty node dirty. -/
theorem fire_dirty_mono (s : Sys) (v : Val) {i : Nat}
    (h : (s.nodes[i]?).map (fun nd => nd.dirty) = some true) :
    (((fireWrapperSet s v).nodes[i]?).map (fun nd => nd.dirty)) = some true := by
  unfold fireWrapperSet
  dsimp only
  split <;>
  · rw [List.getElem?_map]
    cases hg : s.nodes[i]? with
    | none => rw [hg] at h; cases h
    | some nd =>
      rw [hg] at h
      simp only [Option.map_some'] at h ⊢
      split
      · rfl
      · exact h

/-- Helper: the whole set walk keeps every dirty node dirty. -/
theorem setGo_dirty_mono : ∀ (fuel : Nat) (s : Sys) (nid : Nat) (v : Val) {i : Nat},
    ((s.nodes[i]?).map (fun nd => nd.dirty) = some true) →
    ((((setGo fuel s nid v).2).nodes[i]?).map (fun nd => nd.dirty)) = some true := by
  intro fuel
  induction fuel with
  | zero => intro s nid v i h; exact h
  | succ f ih =>
    intro s nid v i h
    unfold setGo
    cases hg : s.nodes[nid]? with
    | none => exact h
    | some node =>
      dsimp only
      cases hprev : node.prev with
      | some p => exact ih _ p v (markDirty_dirty_mono s nid h)
      | none =>
        dsimp only
        cases hw : node.wrapper with
        | none => exact markDirty_dirty_mono s nid h
        | some k => exact fire_dirty_mono _ v (markDirty_dirty_mono s nid h)

/-- Helper: when a depth-0 node with the root parameter among its fn
parameters exists, firing the watchers re-evaluates the root producer and
stores the new value in the shared cell. -/
theorem fire_sharedObj (s : Sys) (v : Val)
    (h : ∃ n0 : Node, s.nodes[0]? = some n0 ∧ n0.depth = 0 ∧ n0.fnParams.any pidZero = true) :
    (fireWrapperSet s v).sharedObj = v := by
  obtain ⟨n0, hg0, hd0, hf0⟩ := h
  have hmem : n0 ∈ s.nodes := List.getElem?_mem hg0
  have hany : (s.nodes.any fun nd => nd.depth == 0 && nd.fnParams.any fun p => p.pid == 0)
      = true := by
    rw [List.any_eq_true]
    refine ⟨n0, hmem, ?_⟩
    rw [Bool.and_eq_true]
    constructor
    · simp [hd0]
    · exact hf0
  unfold fireWrapperSet
  dsimp only
  rw [hany]
  rfl

/-- Helper: full characterization of the set walk on a good system with
enough fuel: on a constant-rooted family it succeeds, writes the new value
into the shared cell via the Wrapper watchers, and leaves every node on
the walked path dirty; on a widget-rooted family it raises (ValueError in
the source, unsupportedRoot here). -/
theorem setGo_spec : ∀ (nid : Nat) (fuel : Nat) (s : Sys) (v : Val) (node : Node),
    GoodSys s → s.nodes[nid]? = some node → nid + 1 ≤ fuel →
    ((s.rootKind = .constant →
        (setGo fuel s nid v).1 = .ok () ∧
        ((setGo fuel s nid v).2).sharedObj = v ∧
        ∀ i ∈ pathOf fuel s nid,
          (((setGo fuel s nid v).2).nodes[i]?).map (fun nd => nd.dirty) = some true) ∧
     (∀ w : Nat, s.rootKind = .widgetRooted w →
        (setGo fuel s nid v).1 = .error .unsupportedRoot)) := by
  intro nid
  induction nid using Nat.strong_induction_on with
  | _ nid ih =>
    intro fuel s v node hG hg hfuel
    obtain ⟨f, rfl⟩ : ∃ f, fuel = f + 1 := ⟨fuel - 1, by omega⟩
    have hG1 : GoodSys (markDirty s nid) :=
      goodSys_of_sigPres (markDirty_sigPres s nid) hG
    have hrk1 : (markDirty s nid).rootKind = s.rootKind :=
      (markDirty_sigPres s nid).1
    cases hprev : node.prev with
    | none =>
      have hpath : pathOf (f + 1) s nid = [nid] := by
        unfold pathOf
        rw [hg]
        dsimp only
        rw [hprev]
      have hstep : setGo (f + 1) s nid v =
          (match node.wrapper with
           | none => (.error .unsupportedRoot, markDirty s nid)
           | some _ => (.ok (), fireWrapperSet (markDirty s nid) v)) := by
        unfold setGo
        rw [hg]
        dsimp only
        rw [hprev]
      constructor
      · intro hrk
        have hw : node.wrapper = some 0 := by
          have hx := (hG.2 nid node hg).2.2.1 hprev
          rw [hrk] at hx
          exact hx
        rw [hstep, hw]
        refine ⟨rfl, ?_, ?_⟩
        · exact fire_sharedObj _ v hG1.1
        · intro i hi
          rw [hpath] at hi
          simp only [List.mem_singleton] at hi
          subst hi
          exact fire_dirty_mono _ v (markDirty_dirty_self s i hg)
      · intro w hrk
        have hw : node.wrapper = none := by
          have hx := (hG.2 nid node hg).2.2.1 hprev
          rw [hrk] at hx
          exact hx
        rw [hstep, hw]
    | some p =>
      have hplt : p < nid := (hG.2 nid node hg).1 p hprev
      have hpltlen : p < s.nodes.length := lt_trans hplt (getSome_lt hg)
      have hgp : s.nodes[p]? = some (s.nodes[p]) := List.getElem?_eq_getElem hpltlen
      have hgp1 : (markDirty s nid).nodes[p]? = some (s.nodes[p]) := by
        rw [markDirty, updateN_get_ne s nid _ (Nat.ne_of_gt hplt)]
        exact hgp
      have hstep : setGo (f + 1) s nid v = setGo f (markDirty s nid) p v := by
        conv_lhs => unfold setGo
        rw [hg]
        dsimp only
        rw [hprev]
      have hpath : pathOf (f + 1) s nid = nid :: pathOf f s p := by
        conv_lhs => unfold pathOf
        rw [hg]
        dsimp only
        rw [hprev]
      have hIH := ih p hplt f (markDirty s nid) v (s.nodes[p]) hG1 hgp1 (by omega)
      constructor
      · intro hrk
        have hIH1 := hIH.1 (by rw [hrk1]; exact hrk)
        rw [hstep]
        refine ⟨hIH1.1, hIH1.2.1, ?_⟩
        intro i hi
        rw [hpath] at hi
        rcases List.mem_cons.mp hi with hi | hi
        · subst hi
          exact setGo_dirty_mono f (markDirty s i) p v (markDirty_dirty_self s i hg)
        · have hpp : pathOf f (markDirty s nid) p = pathOf f s p :=
            pathOf_sigPres f (markDirty_sigPres s nid) p
          exact hIH1.2.2 i (by rw [hpp]; exact hi)
      · intro w hrk
        rw [hstep]
        exact hIH.2 w (by rw [hrk1]; exact hrk)

/-- C5: on every reachable state, set(newValue) fails (with the source's
ValueError, modelled as unsupportedRoot) exactly on a family whose origin
is not a plain boxed constant, and on a constant-rooted family it
succeeds, marks every node on the walk from the called node to the chain
root dirty, and writes the new value into the shared cell through the
root Wrapper's watchers. -/
theorem set_requires_constant_root (s : Sys) (hR : Reach s) (nid : Nat) (node : Node)
    (v : Val) (hg : s.nodes[nid]? = some node) :
    (s.rootKind = .constant →
       (set (nid + 1) s nid v).1 = .ok () ∧
       ((set (nid + 1) s nid v).2).sharedObj = v ∧
       ∀ i ∈ pathOf (nid + 1) s nid,
         (((set (nid + 1) s nid v).2).nodes[i]?).map (fun nd => nd.dirty) = some true) ∧
    (∀ w : Nat, s.rootKind = .widgetRooted w →
       (set (nid + 1) s nid v).1 = .error .unsupportedRoot) :=
  setGo_spec nid (nid + 1) s v node (reach_goodSys hR) hg (le_refl _)

/-- Witness for C5: on the constant-rooted state holding both evaluated
chains, set on the chain node 2 succeeds and updates the shared cell and
set on the widget-rooted derived node reports the unsupported root. -/
theorem set_requires_constant_root_witness :
    (set (2 + 1) siblingEval1.2 2 (.int 10)).1 = .ok () ∧
    ((set (2 + 1) siblingEval1.2 2 (.int 10)).2).sharedObj = .int 10 ∧
    (set (2 + 1) widgetChainBuild.2 2 (.int 10)).1 = .error .unsupportedRoot := by
  have hRc : Reach siblingEval1.2 :=
    Reach.evalS siblingBuild.2 32 4
      (Reach.opS chainEval1.2 32 0 .mul [.val (.int 3)] [] false
        (Reach.evalS chainBuild.2 32 2
          (Reach.opS constRootSys 32 0 .mul [.val (.int 2)] [] false
            (Reach.init .constant (.int 3) []))))
  have hRw : Reach widgetChainBuild.2 :=
    Reach.opS widgetRootSys 32 0 .mul [.val (.int 2)] [] false
      (Reach.init (.widgetRooted 7) (.int 3) [])
  have hc := set_requires_constant_root siblingEval1.2 hRc 2 _ (.int 10) rfl
  have hw := set_requires_constant_root widgetChainBuild.2 hRw 2 _ (.int 10) rfl
  exact ⟨(hc.1 rfl).1, (hc.1 rfl).2.1, hw.2 7 rfl⟩

/-- C7 amended: on every reachable state, a node of depth 0 is a chain
root (its previous link is none); the converse fails, as the
counterexample shows, because accessor-resolution copies keep previous
while incrementing depth. -/
theorem depth_zero_nodes_are_chain_roots (s : Sys) (hR : Reach s) :
    ∀ (i : Nat) (nd : Node), s.nodes[i]? = some nd → nd.depth = 0 → nd.prev = none := by
  intro i nd hg hd
  exact ((reach_goodSys hR).2 i nd hg).2.1 hd

/-- Witness for C7 amended: in the state reached by intercepting expr.A,
the depth-0 node (the original root) indeed has no previous link. -/
theorem depth_zero_nodes_are_chain_roots_witness :
    (accessA.2.nodes[0]?).map (fun nd => nd.prev) = some none := by
  have hRa : Reach accessA.2 :=
    Reach.attrS recASys 32 0 "A"
      (Reach.init .constant (.recV [("A", .int 7)] []) [])
  cases hg : accessA.2.nodes[0]? with
  | none =>
    have hs : (accessA.2.nodes[0]?).isSome = true := rfl
    rw [hg] at hs
    cases hs
  | some nd =>
    have hd : nd.depth = 0 := by
      have hx : (accessA.2.nodes[0]?).map (fun nd => nd.depth) = some 0 := rfl
      rw [hg] at hx
      simpa using hx
    have h := depth_zero_nodes_are_chain_roots accessA.2 hRa 0 nd hg hd
    simpa using h
